import Mathlib

/-!
Verification development for the kube-compose `up` tool.

Go strings are byte sequences; they are embedded as `List Nat` with every
element < 256.  Machine integers are embedded as `Nat`/`Int`.  Fallible Go
functions returning `(T, error)` are embedded as `Option`/`Except`.
-/

set_option maxHeartbeats 1000000

/-- Bytes of a Lean string literal, used to write concrete byte-list inputs. -/
def strBytes (s : String) : List Nat := s.data.map Char.toNat

/-! ## internal/pkg/util/util.go — name escaping -/

/-- Source constant `chars = "abcdefghijklmnopqrstuvwxyz0123456789"`. -/
def chars : List Nat := strBytes "abcdefghijklmnopqrstuvwxyz0123456789"

/-- Body of the loop of `EscapeName` for the byte `b` at index `i` of an input
of length `n`: safe bytes `'0'..'8'` and `'a'..'z'` are copied, `'-'` is copied
when `i > 0 && i < n-1`, every other byte is emitted as
`'9' chars[b/36] chars[b%36]`. -/
def escapeChar (n i b : Nat) : List Nat :=
  if (48 ≤ b ∧ b ≤ 56) ∨ (97 ≤ b ∧ b ≤ 122) then [b]
  else if b = 45 ∧ 0 < i ∧ i < n - 1 then [b]
  else [57, chars.getD (b / 36) 0, chars.getD (b % 36) 0]

/-- The loop of `EscapeName`: `i` is the current index, `n` the input length. -/
def escapeAux (n : Nat) : Nat → List Nat → List Nat
  | _, [] => []
  | i, b :: rest => escapeChar n i b ++ escapeAux n (i + 1) rest

/-- Go `util.EscapeName`. -/
def EscapeName (input : List Nat) : List Nat :=
  escapeAux input.length 0 input

/-- Go `util.decodeBase36` (returns -1 for an invalid base-36 byte). -/
def decodeBase36 (b : Nat) : Int :=
  if b ≤ 57 then
    if 48 ≤ b then 26 - 48 + (b : Int) else -1
  else if 97 ≤ b ∧ b ≤ 122 then (b : Int) - 97
  else -1

/-- Go `util.UnescapeName` (together with `unescapeByte`): a `'9'` must be
followed by two valid base-36 digits decoding to a byte < 256, else the
function fails; every other byte is copied. -/
def UnescapeName : List Nat → Option (List Nat)
  | [] => some []
  | b :: rest =>
    if b = 57 then
      match rest with
      | c1 :: c2 :: rest2 =>
        if 0 ≤ decodeBase36 c1 then
          if 0 ≤ decodeBase36 c2 then
            if decodeBase36 c1 * 36 + decodeBase36 c2 < 256 then
              (UnescapeName rest2).map
                (fun l => (decodeBase36 c1 * 36 + decodeBase36 c2).toNat :: l)
            else none
          else none
        else none
      | _ => none
    else (UnescapeName rest).map (fun l => b :: l)

/-- Byte class `[a-z0-9]` of the DNS-1123 label grammar. -/
def isLowerAlnum (b : Nat) : Bool :=
  (97 ≤ b && b ≤ 122) || (48 ≤ b && b ≤ 57)

/-- Acceptance by the regular expression `^[a-z0-9]([-a-z0-9]*[a-z0-9])?$`:
a non-empty word over `[-a-z0-9]` whose first and last byte are in
`[a-z0-9]`. -/
def matchesDNS1123 (s : List Nat) : Bool :=
  !s.isEmpty && s.all (fun b => isLowerAlnum b || b == 45)
    && isLowerAlnum (s.headD 0) && isLowerAlnum (s.getLastD 0)

theorem decodeBase36_chars : ∀ d, d < 36 → decodeBase36 (chars.getD d 0) = (d : Int) := by
  decide

theorem chars_lowerAlnum : ∀ d, d < 36 → isLowerAlnum (chars.getD d 0) = true := by
  decide

theorem unescapeName_cons_lit (b : Nat) (rest : List Nat) (h : ¬ b = 57) :
    UnescapeName (b :: rest) = (UnescapeName rest).map (fun l => b :: l) := by
  rw [UnescapeName.eq_def]
  simp [h]

theorem unescapeName_cons_esc (c1 c2 : Nat) (rest : List Nat)
    (h1 : 0 ≤ decodeBase36 c1) (h2 : 0 ≤ decodeBase36 c2)
    (h3 : decodeBase36 c1 * 36 + decodeBase36 c2 < 256) :
    UnescapeName (57 :: c1 :: c2 :: rest) =
      (UnescapeName rest).map
        (fun l => (decodeBase36 c1 * 36 + decodeBase36 c2).toNat :: l) := by
  rw [UnescapeName.eq_def]
  simp [h1, h2, h3]

theorem unescape_escapeAux (s : List Nat) (n : Nat) :
    ∀ i, (∀ b ∈ s, b < 256) → UnescapeName (escapeAux n i s) = some s := by
  induction s with
  | nil => intro i _; rfl
  | cons b rest ih =>
    intro i h
    have hb : b < 256 := h b (List.mem_cons_self b rest)
    have hrest : ∀ x ∈ rest, x < 256 := fun x hx => h x (List.mem_cons_of_mem b hx)
    rw [escapeAux]
    by_cases h1 : (48 ≤ b ∧ b ≤ 56) ∨ (97 ≤ b ∧ b ≤ 122)
    · have hb57 : ¬ b = 57 := by omega
      rw [escapeChar, if_pos h1, List.cons_append, List.nil_append,
        unescapeName_cons_lit b _ hb57, ih (i + 1) hrest]
      rfl
    · by_cases h2 : b = 45 ∧ 0 < i ∧ i < n - 1
      · have hb57 : ¬ b = 57 := by omega
        rw [escapeChar, if_neg h1, if_pos h2, List.cons_append, List.nil_append,
          unescapeName_cons_lit b _ hb57, ih (i + 1) hrest]
        rfl
      · rw [escapeChar, if_neg h1, if_neg h2]
        have hd1 : b / 36 < 36 := Nat.div_lt_of_lt_mul (by omega)
        have hd2 : b % 36 < 36 := Nat.mod_lt _ (by omega)
        have e1 : decodeBase36 (chars.getD (b / 36) 0) = ((b / 36 : Nat) : Int) :=
          decodeBase36_chars _ hd1
        have e2 : decodeBase36 (chars.getD (b % 36) 0) = ((b % 36 : Nat) : Int) :=
          decodeBase36_chars _ hd2
        have hsum : ((b / 36 : Nat) : Int) * 36 + ((b % 36 : Nat) : Int) = (b : Int) := by
          push_cast
          omega
        simp only [List.cons_append, List.nil_append]
        rw [unescapeName_cons_esc _ _ _ (by rw [e1]; exact Int.natCast_nonneg _)
          (by rw [e2]; exact Int.natCast_nonneg _)
          (by rw [e1, e2, hsum]; exact_mod_cast hb)]
        rw [ih (i + 1) hrest, e1, e2, hsum]
        simp

theorem unescapeName_escapeName (s : List Nat) (h : ∀ b ∈ s, b < 256) :
    UnescapeName (EscapeName s) = some s :=
  unescape_escapeAux s s.length 0 h

theorem escapeChar_ne_nil (n i b : Nat) : escapeChar n i b ≠ [] := by
  rw [escapeChar]
  split
  · simp
  · split <;> simp

theorem escapeAux_ne_nil (s : List Nat) (n i : Nat) (h : s ≠ []) :
    escapeAux n i s ≠ [] := by
  cases s with
  | nil => exact absurd rfl h
  | cons b rest =>
    rw [escapeAux]
    intro hcon
    exact escapeChar_ne_nil n i b (List.append_eq_nil.mp hcon).1

theorem escapeChar_class (n i b : Nat) (hb : b < 256) :
    ∀ c ∈ escapeChar n i b, (isLowerAlnum c || c == 45) = true := by
  intro c hc
  rw [escapeChar] at hc
  split at hc
  · rename_i h1
    rw [List.mem_singleton] at hc
    subst hc
    simp only [isLowerAlnum, Bool.or_eq_true, Bool.and_eq_true, decide_eq_true_eq, beq_iff_eq]
    omega
  · split at hc
    · rename_i h2
      rw [List.mem_singleton] at hc
      subst hc
      simp [h2.1]
    · simp only [List.mem_cons, List.mem_singleton, List.not_mem_nil, or_false] at hc
      rcases hc with hc | hc | hc
      · subst hc; simp [isLowerAlnum]
      · subst hc
        have h36 : isLowerAlnum (chars.getD (b / 36) 0) = true :=
          chars_lowerAlnum _ (Nat.div_lt_of_lt_mul (by omega))
        rw [h36, Bool.true_or]
      · subst hc
        have h36 : isLowerAlnum (chars.getD (b % 36) 0) = true :=
          chars_lowerAlnum _ (Nat.mod_lt _ (by omega))
        rw [h36, Bool.true_or]

theorem escapeAux_class (s : List Nat) (n : Nat) :
    ∀ i, (∀ b ∈ s, b < 256) → ∀ c ∈ escapeAux n i s, (isLowerAlnum c || c == 45) = true := by
  induction s with
  | nil => intro i _ c hc; simp [escapeAux] at hc
  | cons b rest ih =>
    intro i h c hc
    rw [escapeAux, List.mem_append] at hc
    rcases hc with hc | hc
    · exact escapeChar_class n i b (h b (List.mem_cons_self b rest)) c hc
    · exact ih (i + 1) (fun x hx => h x (List.mem_cons_of_mem b hx)) c hc

theorem escapeChar_head_zero (n b : Nat) (hb : b < 256) :
    isLowerAlnum ((escapeChar n 0 b).headD 0) = true := by
  rw [escapeChar]
  split
  · rename_i h1
    simp only [List.headD_cons, isLowerAlnum, Bool.or_eq_true, Bool.and_eq_true,
      decide_eq_true_eq]
    omega
  · split
    · rename_i h2
      exact absurd h2.2.1 (by omega)
    · simp [isLowerAlnum]

theorem getLastD_append_of_ne_nil (l₁ : List Nat) :
    ∀ (l₂ : List Nat) (d : Nat), l₂ ≠ [] → (l₁ ++ l₂).getLastD d = l₂.getLastD d := by
  induction l₁ with
  | nil => intro l₂ d _; rfl
  | cons a t ih =>
    intro l₂ d h
    rw [List.cons_append, List.getLastD_cons, ih l₂ a h]
    cases l₂ with
    | nil => exact absurd rfl h
    | cons x xs => rw [List.getLastD_cons, List.getLastD_cons]

theorem escapeChar_last (n i b : Nat) (hb : b < 256) (hlast : ¬ i < n - 1) :
    isLowerAlnum ((escapeChar n i b).getLastD 0) = true := by
  rw [escapeChar]
  split
  · rename_i h1
    show isLowerAlnum b = true
    simp only [isLowerAlnum, Bool.or_eq_true, Bool.and_eq_true, decide_eq_true_eq]
    omega
  · split
    · rename_i h2
      exact absurd h2.2.2 hlast
    · show isLowerAlnum (chars.getD (b % 36) 0) = true
      exact chars_lowerAlnum _ (Nat.mod_lt _ (by omega))

theorem escapeAux_last (s : List Nat) (n : Nat) :
    ∀ i, i + s.length = n → (∀ b ∈ s, b < 256) → s ≠ [] →
      isLowerAlnum ((escapeAux n i s).getLastD 0) = true := by
  induction s with
  | nil => intro i _ _ h; exact absurd rfl h
  | cons b rest ih =>
    intro i hn h _
    rw [escapeAux]
    cases rest with
    | nil =>
      rw [show escapeAux n (i + 1) [] = [] from rfl, List.append_nil]
      apply escapeChar_last n i b (h b (by simp))
      simp at hn
      omega
    | cons r rest2 =>
      rw [getLastD_append_of_ne_nil _ _ _
        (escapeAux_ne_nil (r :: rest2) n (i + 1) (by simp))]
      apply ih (i + 1) (by simp at hn ⊢; omega)
        (fun x hx => h x (List.mem_cons_of_mem b hx)) (by simp)

theorem escapeName_matches (s : List Nat) (hne : s ≠ []) (h : ∀ b ∈ s, b < 256) :
    matchesDNS1123 (EscapeName s) = true := by
  rw [matchesDNS1123]
  simp only [Bool.and_eq_true, Bool.not_eq_true', List.all_eq_true]
  refine ⟨⟨⟨?_, ?_⟩, ?_⟩, ?_⟩
  · have h0 : escapeAux s.length 0 s ≠ [] := escapeAux_ne_nil s s.length 0 hne
    rcases hcase : escapeAux s.length 0 s with _ | ⟨a, t⟩
    · exact absurd hcase h0
    · rw [EscapeName, hcase]
      rfl
  · exact escapeAux_class s s.length 0 h
  · cases s with
    | nil => exact absurd rfl hne
    | cons b rest =>
      rw [EscapeName]
      simp only [List.length_cons]
      rw [escapeAux]
      have hchar := escapeChar_head_zero (rest.length + 1) b (h b (List.mem_cons_self b rest))
      rcases hd : escapeChar (rest.length + 1) 0 b with _ | ⟨c, cs⟩
      · exact absurd hd (escapeChar_ne_nil _ _ _)
      · rw [hd] at hchar
        simpa using hchar
  · exact escapeAux_last s s.length 0 (by omega) h hne

/-- C1 (amended): for every byte string `s`, `UnescapeName (EscapeName s)`
succeeds and returns `s` (the empty string included), and whenever `s` is
non-empty, `EscapeName s` matches the DNS-1123 label grammar. -/
theorem escapeName_dns1123_and_roundtrip (s : List Nat) (h : ∀ b ∈ s, b < 256) :
    (s ≠ [] → matchesDNS1123 (EscapeName s) = true) ∧
      UnescapeName (EscapeName s) = some s :=
  ⟨fun hne => escapeName_matches s hne h, unescapeName_escapeName s h⟩

/-- Witness for C1 at the concrete input "h-!", plus the round-trip at the
empty string. -/
theorem escapeName_dns1123_and_roundtrip_witness :
    (∀ b ∈ ([104, 45, 33] : List Nat), b < 256) ∧
      ([104, 45, 33] : List Nat) ≠ [] ∧
      matchesDNS1123 (EscapeName [104, 45, 33]) = true ∧
      UnescapeName (EscapeName [104, 45, 33]) = some [104, 45, 33] ∧
      UnescapeName (EscapeName ([] : List Nat)) = some [] :=
  ⟨by decide, by decide,
    (escapeName_dns1123_and_roundtrip [104, 45, 33] (by decide)).1 (by decide),
    (escapeName_dns1123_and_roundtrip [104, 45, 33] (by decide)).2,
    (escapeName_dns1123_and_roundtrip [] (by decide)).2⟩

/-- Counterexample to C1 as stated: for the empty string, `EscapeName` returns
the empty string, which does not match `^[a-z0-9]([-a-z0-9]*[a-z0-9])?$`
(the grammar requires at least one character). -/
theorem escapeName_empty_not_dns1123 : matchesDNS1123 (EscapeName []) = false := by
  decide

/-- Emission of `EscapeName` at index `i`, written from the words of the
claim: the byte is copied exactly when it is one of `'0'..'8'`, `'a'..'z'`, a
`'-'` is copied exactly when it is neither the first nor the last byte, and
every other byte becomes `'9' chars[b/36] chars[b%36]`. -/
def emitClaim (s : List Nat) (i : Nat) : List Nat :=
  let b := s.getD i 0
  if (48 ≤ b ∧ b ≤ 56) ∨ (97 ≤ b ∧ b ≤ 122) then [b]
  else if b = 45 ∧ i ≠ 0 ∧ i ≠ s.length - 1 then [b]
  else [57, chars.getD (b / 36) 0, chars.getD (b % 36) 0]

theorem escapeAux_eq_emit (t : List Nat) :
    ∀ pre : List Nat,
      escapeAux (pre ++ t).length pre.length t =
        (List.range t.length).flatMap (fun j => emitClaim (pre ++ t) (pre.length + j)) := by
  induction t with
  | nil => intro pre; rfl
  | cons b rest ih =>
    intro pre
    rw [escapeAux]
    have happ : pre ++ b :: rest = (pre ++ [b]) ++ rest := by simp
    have ihspec := ih (pre ++ [b])
    rw [← happ] at ihspec
    have hl1 : (pre ++ [b]).length = pre.length + 1 := by simp
    rw [hl1] at ihspec
    have hlen : (pre ++ b :: rest).length = pre.length + 1 + rest.length := by
      simp
      omega
    rw [List.length_cons, List.range_succ_eq_map, List.flatMap_cons, List.flatMap_map]
    have hhead : escapeChar (pre ++ b :: rest).length pre.length b =
        emitClaim (pre ++ b :: rest) (pre.length + 0) := by
      have hgd : (pre ++ b :: rest).getD pre.length 0 = b := by
        rw [List.getD_eq_getElem?_getD, List.getElem?_append_right (Nat.le_refl _)]
        simp
      rw [emitClaim, Nat.add_zero, hgd, escapeChar]
      rcases Decidable.em ((48 ≤ b ∧ b ≤ 56) ∨ (97 ≤ b ∧ b ≤ 122)) with h1 | h1
      · rw [if_pos h1, if_pos h1]
      · rw [if_neg h1, if_neg h1]
        have hcond : (b = 45 ∧ 0 < pre.length ∧ pre.length < (pre ++ b :: rest).length - 1) ↔
            (b = 45 ∧ pre.length ≠ 0 ∧ pre.length ≠ (pre ++ b :: rest).length - 1) := by
          rw [hlen]
          constructor
          · rintro ⟨hb, h2, h3⟩; exact ⟨hb, by omega, by omega⟩
          · rintro ⟨hb, h2, h3⟩; exact ⟨hb, by omega, by omega⟩
        rcases Decidable.em (b = 45 ∧ 0 < pre.length ∧
            pre.length < (pre ++ b :: rest).length - 1) with h2 | h2
        · rw [if_pos h2, if_pos (hcond.mp h2)]
        · rw [if_neg h2, if_neg (fun hx => h2 (hcond.mpr hx))]
    rw [hhead, ihspec]
    have hfun : (fun j => emitClaim (pre ++ b :: rest) (pre.length + 1 + j)) =
        (fun a : Nat => emitClaim (pre ++ b :: rest) (pre.length + a.succ)) := by
      funext j
      have harg : pre.length + 1 + j = pre.length + j.succ := by omega
      rw [harg]
    rw [hfun]

/-- C2: `EscapeName` is the concatenation, over the positions of the input, of
the per-byte emission described by the claim: bytes `'0'..'8'` and `'a'..'z'`
are copied, `'-'` is copied exactly when neither first nor last, and every
other byte `b` (including `'9'`) becomes the three bytes
`'9' chars[b/36] chars[b%36]`. -/
theorem escapeName_eq_flatMap_emit (s : List Nat) :
    EscapeName s = (List.range s.length).flatMap (emitClaim s) := by
  have h := escapeAux_eq_emit s []
  simp only [List.nil_append, List.length_nil, Nat.zero_add] at h
  rw [EscapeName, h]

/-! ## k8smeta (src/unnamed/part_003) — object metadata for compose services -/

/-- Modelled from the spec: `config.Service` is declared outside the given
sources; per §3 it carries the service name and its deterministic escaped
name, and `Name()` returns the original name. -/
structure Service where
  name : String
  nameEscaped : String

/-- Go method `Service.Name()`. -/
def Service.getName (s : Service) : String := s.name

/-- Modelled from the spec: the fields of `config.Config` used by the metadata
code (§3 Environment): environment id, environment label key and the flag
`EnvironmentIDNoAppend`. -/
structure Config where
  environmentID : String
  environmentLabel : String
  environmentIDNoAppend : Bool

/-- Kubernetes `ObjectMeta`, with string maps embedded as lookup functions. -/
structure ObjectMeta where
  name : String
  labels : String → Option String
  annotations : String → Option String

/-- Insertion into a Go string map (later writes win). -/
def mapInsert (m : String → Option String) (k v : String) : String → Option String :=
  fun k2 => if k2 = k then some v else m k2

/-- Source constant `AnnotationName = "kube-compose/service"`. -/
def AnnotationName : String := "kube-compose/service"

/-- Go `k8smeta.InitCommonLabels`: sets `labels["app"]` to the escaped name and
`labels[cfg.EnvironmentLabel]` to the environment id. -/
def InitCommonLabels (cfg : Config) (composeService : Service)
    (labels : String → Option String) : String → Option String :=
  mapInsert (mapInsert labels "app" composeService.nameEscaped)
    cfg.environmentLabel cfg.environmentID

/-- Go `k8smeta.GetK8sName`. -/
def GetK8sName (service : Service) (cfg : Config) : String :=
  if cfg.environmentIDNoAppend then service.nameEscaped
  else service.nameEscaped ++ "-" ++ cfg.environmentID

/-- Go `k8smeta.InitObjectMeta`: sets the name, labels and annotations of a
resource for the specified docker compose service. -/
def InitObjectMeta (cfg : Config) (objectMeta : ObjectMeta) (composeService : Service) :
    ObjectMeta :=
  { name := GetK8sName composeService cfg
    labels := InitCommonLabels cfg composeService objectMeta.labels
    annotations := mapInsert objectMeta.annotations AnnotationName composeService.getName }

/-- C3: metadata initialised for a compose service carries the annotation
`kube-compose/service` equal to the service's original name; the object name is
the escaped name when `EnvironmentIDNoAppend` is set and otherwise the escaped
name, a dash and the environment id; hence the escaped name is a prefix of the
resource name. -/
theorem initObjectMeta_annotation_and_name (cfg : Config) (objectMeta : ObjectMeta)
    (composeService : Service) :
    (InitObjectMeta cfg objectMeta composeService).annotations AnnotationName =
        some composeService.name ∧
      (InitObjectMeta cfg objectMeta composeService).name =
        (if cfg.environmentIDNoAppend then composeService.nameEscaped
         else composeService.nameEscaped ++ "-" ++ cfg.environmentID) ∧
      ∃ suffix, (InitObjectMeta cfg objectMeta composeService).name =
        composeService.nameEscaped ++ suffix := by
  refine ⟨?_, rfl, ?_⟩
  · rw [InitObjectMeta]
    simp [mapInsert, Service.getName]
  · rw [InitObjectMeta]
    simp only [GetK8sName]
    rcases cfg.environmentIDNoAppend with _ | _
    · exact ⟨"-" ++ cfg.environmentID, by simp [String.append_assoc]⟩
    · exact ⟨"", by simp⟩

/-! ## internal/app/up/util.go — healthcheck to readiness probe -/

/-- Modelled from the spec: `dockerComposeConfig.Healthcheck` is declared
outside the given sources; per §3 it carries `IsShell`, the sentinel-stripped
`Test`, `Interval` and `Timeout` durations (nanoseconds) and the unsigned
`Retries`. -/
structure Healthcheck where
  isShell : Bool
  test : List String
  interval : Int
  timeout : Int
  retries : Nat

/-- Source constant `math.MaxInt32`. -/
def maxInt32 : Nat := 2147483647

/-- Kubernetes readiness probe, restricted to the fields the claims are about.
`PeriodSeconds` and `TimeoutSeconds` are computed by the source through
`float64` rounding and are not modelled. -/
structure Probe where
  execCommand : List String
  initialDelaySeconds : Int
  failureThreshold : Nat

/-- Go `createReadinessProbeFromDockerHealthcheck`: `nil` healthchecks yield no
probe; `Retries` is clamped into int32; the exec command array of length
`len(Test) + offset` is filled with `/bin/sh -c` at the front when `IsShell`
and with the `Test` entries shifted by the offset; `InitialDelaySeconds` is
always zero. -/
def createReadinessProbeFromDockerHealthcheck : Option Healthcheck → Option Probe
  | none => none
  | some healthcheck =>
    let retriesInt32 : Nat :=
      if healthcheck.retries > maxInt32 then maxInt32 else healthcheck.retries
    let offset : Nat := if healthcheck.isShell then 2 else 0
    let n := healthcheck.test.length + offset
    let execCommand := (List.range n).map (fun i =>
      if i < offset then ["/bin/sh", "-c"].getD i ""
      else healthcheck.test.getD (i - offset) "")
    some { execCommand := execCommand
           initialDelaySeconds := 0
           failureThreshold := retriesInt32 }

/-- C5: the translation is total on non-nil healthchecks and the probe's
failure threshold is `Retries` saturated at `MAX_INT32`: it equals `MAX_INT32`
whenever `Retries ≥ MAX_INT32` and equals `Retries` whenever
`Retries < MAX_INT32`. -/
theorem readinessProbe_failureThreshold (h : Healthcheck) :
    ∃ p, createReadinessProbeFromDockerHealthcheck (some h) = some p ∧
      p.failureThreshold = (if maxInt32 ≤ h.retries then maxInt32 else h.retries) := by
  refine ⟨_, rfl, ?_⟩
  show (if h.retries > maxInt32 then maxInt32 else h.retries) =
    (if maxInt32 ≤ h.retries then maxInt32 else h.retries)
  rcases Nat.lt_trichotomy h.retries maxInt32 with hlt | heq | hgt
  · rw [if_neg (by omega), if_neg (by omega)]
  · rw [if_neg (by omega), if_pos (by omega), heq]
  · rw [if_pos (by omega), if_pos (by omega)]

theorem map_getD_range (l : List String) :
    (List.range l.length).map (fun i => l.getD i "") = l := by
  induction l with
  | nil => rfl
  | cons a t ih =>
    rw [List.length_cons, List.range_succ_eq_map, List.map_cons, List.map_map]
    have hfun : ((fun i => (a :: t).getD i "") ∘ Nat.succ) = (fun i => t.getD i "") := by
      funext i
      simp [Function.comp]
    rw [hfun, ih]
    rfl

/-- C6: the probe's exec command is `/bin/sh -c` followed by the healthcheck's
`Test` when `IsShell` is set (the CMD-SHELL case) and `Test` unchanged
otherwise, and `InitialDelaySeconds` is zero in every case. -/
theorem readinessProbe_execCommand (h : Healthcheck) :
    ∃ p, createReadinessProbeFromDockerHealthcheck (some h) = some p ∧
      p.execCommand = (if h.isShell then "/bin/sh" :: "-c" :: h.test else h.test) ∧
      p.initialDelaySeconds = 0 := by
  refine ⟨_, rfl, ?_, rfl⟩
  rcases hsh : h.isShell with _ | _
  · show (List.range (h.test.length + 0)).map (fun i =>
        if i < 0 then ["/bin/sh", "-c"].getD i "" else h.test.getD (i - 0) "") = h.test
    have hfun : (fun i => if i < 0 then ["/bin/sh", "-c"].getD i ""
        else h.test.getD (i - 0) "") = (fun i => h.test.getD i "") := by
      funext i
      rw [if_neg (Nat.not_lt_zero i), Nat.sub_zero]
    rw [Nat.add_zero, hfun, map_getD_range]
  · show (List.range (h.test.length + 2)).map (fun i =>
        if i < 2 then ["/bin/sh", "-c"].getD i "" else h.test.getD (i - 2) "") =
      "/bin/sh" :: "-c" :: h.test
    rw [Nat.add_comm h.test.length 2, List.range_add, List.map_append, List.map_map]
    have hfun : ((fun i => if i < 2 then ["/bin/sh", "-c"].getD i ""
        else h.test.getD (i - 2) "") ∘ (fun i => 2 + i)) = (fun i => h.test.getD i "") := by
      funext i
      simp only [Function.comp]
      rw [if_neg (by omega)]
      congr 1
      omega
    rw [hfun, map_getD_range]
    rfl

/-! ## compose config decoding (src/unnamed/part_000) -/

/-- A YAML scalar handed to `environmentValue.Decode` by mapdecode: either a
number or a string.  Go `float64` values are embedded as exact rationals. -/
inductive EnvRawValue where
  | num : ℚ → EnvRawValue
  | str : String → EnvRawValue

/-- Go's `int64(f)` conversion for a float in range: truncation toward zero. -/
def ratTrunc (x : ℚ) : Int := x.num / (x.den : Int)

/-- Go value of type `environmentValue` after decoding. -/
structure EnvironmentValue where
  floatValue : Option ℚ
  int64Value : Option Int
  stringValue : Option String

/-- Go `environmentValue.Decode`: a numeric scalar in
`[-9223372036854775000, 9223372036854775000]` with `math.Floor(f) == f`
becomes an int64, any other numeric scalar becomes a float64, and a string
scalar becomes a string value. -/
def environmentValueDecode : EnvRawValue → EnvironmentValue
  | .num f =>
    if -9223372036854775000 ≤ f ∧ f ≤ 9223372036854775000 ∧ ((⌊f⌋ : ℚ) = f) then
      { floatValue := none, int64Value := some (ratTrunc f), stringValue := none }
    else
      { floatValue := some f, int64Value := none, stringValue := none }
  | .str s => { floatValue := none, int64Value := none, stringValue := some s }

/-- C7: a numeric environment value decodes to an int64 (the truncation of the
number) exactly when it lies in `[-9.223372036854775e18, 9.223372036854775e18]`
and is integral, and to a float64 equal to the number otherwise; in particular
`42` gives int64 `42`, `1.5` gives float64 `3/2`, `9.223372036854775e18` gives
an int64 and `9.3e18` gives a float64. -/
theorem environmentValueDecode_numeric :
    (∀ x : ℚ,
      ((environmentValueDecode (.num x)).int64Value = some (ratTrunc x) ∧
          (environmentValueDecode (.num x)).floatValue = none) ↔
        (-9223372036854775000 ≤ x ∧ x ≤ 9223372036854775000 ∧ ((⌊x⌋ : ℚ) = x))) ∧
    (∀ x : ℚ,
      ¬ (-9223372036854775000 ≤ x ∧ x ≤ 9223372036854775000 ∧ ((⌊x⌋ : ℚ) = x)) →
        ((environmentValueDecode (.num x)).floatValue = some x ∧
          (environmentValueDecode (.num x)).int64Value = none)) ∧
    (environmentValueDecode (.num 42)).int64Value = some 42 ∧
    (environmentValueDecode (.num (3 / 2))).floatValue = some (3 / 2) ∧
    (environmentValueDecode (.num 9223372036854775000)).int64Value =
      some 9223372036854775000 ∧
    (environmentValueDecode (.num 9300000000000000000)).floatValue =
      some 9300000000000000000 := by
  refine ⟨?_, ?_, ?_, ?_, ?_, ?_⟩
  · intro x
    constructor
    · intro hval
      by_contra hcond
      rw [environmentValueDecode, if_neg hcond] at hval
      exact Option.some_ne_none _ hval.1.symm
    · intro hcond
      rw [environmentValueDecode, if_pos hcond]
      exact ⟨rfl, rfl⟩
  · intro x hcond
    rw [environmentValueDecode, if_neg hcond]
    exact ⟨rfl, rfl⟩
  · rw [environmentValueDecode, if_pos (by norm_num)]
    rfl
  · have hnot : ¬ (-9223372036854775000 ≤ (3 / 2 : ℚ) ∧ (3 / 2 : ℚ) ≤ 9223372036854775000 ∧
        ((⌊(3 / 2 : ℚ)⌋ : ℚ) = 3 / 2)) := by
      intro hcon
      have hfl : (⌊(3 / 2 : ℚ)⌋ : ℚ) = 3 / 2 := hcon.2.2
      norm_num at hfl
    rw [environmentValueDecode, if_neg hnot]
  · rw [environmentValueDecode, if_pos (by norm_num)]
    rfl
  · have hnot : ¬ (-9223372036854775000 ≤ (9300000000000000000 : ℚ) ∧
        (9300000000000000000 : ℚ) ≤ 9223372036854775000 ∧
        ((⌊(9300000000000000000 : ℚ)⌋ : ℚ) = 9300000000000000000)) := by
      intro hcon
      have hle : (9300000000000000000 : ℚ) ≤ 9223372036854775000 := hcon.2.1
      norm_num at hle
    rw [environmentValueDecode, if_neg hnot]

/-- Witness for C7 exercising the float branch at `x = 3/2`. -/
theorem environmentValueDecode_numeric_witness :
    (environmentValueDecode (.num (3 / 2))).floatValue = some (3 / 2) ∧
      (environmentValueDecode (.num (3 / 2))).int64Value = none :=
  environmentValueDecode_numeric.2.1 (3 / 2) (by
    intro hcon
    have hfl : (⌊(3 / 2 : ℚ)⌋ : ℚ) = 3 / 2 := hcon.2.2
    norm_num at hfl)

/-- Go `config.ServiceHealthiness`. -/
inductive ServiceHealthiness where
  | serviceStarted
  | serviceHealthy
  | serviceCompletedSuccessfully
deriving DecidableEq

/-- A YAML value handed to `dependsOn.Decode`: either a map from service names
to `{condition: ...}` objects, or a plain list of service names. -/
inductive DependsOnRaw where
  | strMap : List (String × String) → DependsOnRaw
  | list : List String → DependsOnRaw

/-- The `switch obj.Condition` of `dependsOn.Decode`. -/
def condOfString : String → Option ServiceHealthiness
  | "service_healthy" => some .serviceHealthy
  | "service_started" => some .serviceStarted
  | "service_completed_successfully" => some .serviceCompletedSuccessfully
  | _ => none

/-- The list branch of `dependsOn.Decode`: each name is inserted with
`ServiceStarted`; a name already present makes the decode fail. -/
def decodeDependsOnList (acc : List (String × ServiceHealthiness)) :
    List String → Except String (List (String × ServiceHealthiness))
  | [] => .ok acc
  | s :: rest =>
    match acc.lookup s with
    | some _ => .error "depends_on list cannot contain duplicate values"
    | none => decodeDependsOnList (acc ++ [(s, .serviceStarted)]) rest

/-- The map branch of `dependsOn.Decode`: every entry's condition must be one
of the three known conditions, otherwise the decode fails. -/
def decodeDependsOnMap :
    List (String × String) → Except String (List (String × ServiceHealthiness))
  | [] => .ok []
  | (service, cond) :: rest =>
    match condOfString cond with
    | some h => (decodeDependsOnMap rest).map (fun l => (service, h) :: l)
    | none => .error ("depends_on map contains an entry with an invalid condition: " ++ cond)

/-- Go `dependsOn.Decode`: the map shape goes through the condition switch,
the list shape marks every name `ServiceStarted` and rejects duplicates. -/
def dependsOnDecode : DependsOnRaw → Except String (List (String × ServiceHealthiness))
  | .strMap m => decodeDependsOnMap m
  | .list l => decodeDependsOnList [] l

theorem lookup_append_none {α β : Type} [BEq α] (l₁ l₂ : List (α × β)) (k : α)
    (h₁ : l₁.lookup k = none) : (l₁ ++ l₂).lookup k = l₂.lookup k := by
  induction l₁ with
  | nil => rfl
  | cons p t ih =>
    rw [List.cons_append, List.lookup_cons] at *
    rcases hbeq : (k == p.1) with _ | _
    · rw [hbeq] at h₁
      simp only at h₁ ⊢
      exact ih h₁
    · rw [hbeq] at h₁
      simp at h₁

theorem decodeDependsOnList_ok (l : List String) :
    ∀ acc, l.Nodup → (∀ s ∈ l, acc.lookup s = none) →
      decodeDependsOnList acc l =
        .ok (acc ++ l.map (fun s => (s, ServiceHealthiness.serviceStarted))) := by
  induction l with
  | nil => intro acc _ _; simp [decodeDependsOnList]
  | cons s rest ih =>
    intro acc hnd hacc
    have hstep : decodeDependsOnList acc (s :: rest) =
        decodeDependsOnList (acc ++ [(s, .serviceStarted)]) rest := by
      rw [decodeDependsOnList, hacc s (List.mem_cons_self s rest)]
    rw [hstep]
    rw [ih (acc ++ [(s, ServiceHealthiness.serviceStarted)]) (List.nodup_cons.mp hnd).2 ?_]
    · simp
    · intro t ht
      rw [lookup_append_none _ _ _ (hacc t (List.mem_cons_of_mem s ht))]
      have hts : ¬ (t == s) = true := by
        simp only [beq_iff_eq]
        intro hcon
        exact (List.nodup_cons.mp hnd).1 (hcon ▸ ht)
      rw [List.lookup_cons]
      simp only [hts]
      rfl

theorem lookup_append_some {α β : Type} [BEq α] (l₁ l₂ : List (α × β)) (k : α) (v : β)
    (h₁ : l₁.lookup k = some v) : (l₁ ++ l₂).lookup k = some v := by
  induction l₁ with
  | nil => simp at h₁
  | cons p t ih =>
    rw [List.cons_append, List.lookup_cons] at *
    rcases hbeq : (k == p.1) with _ | _
    · rw [hbeq] at h₁
      simp only at h₁ ⊢
      exact ih h₁
    · rw [hbeq] at h₁
      simpa using h₁

theorem decodeDependsOnList_error (l : List String) :
    ∀ acc, (¬ l.Nodup ∨ ∃ s ∈ l, (acc.lookup s).isSome) →
      ∃ e, decodeDependsOnList acc l = .error e := by
  induction l with
  | nil =>
    intro acc h
    rcases h with h | ⟨s, hs, _⟩
    · exact absurd List.nodup_nil h
    · exact absurd hs (List.not_mem_nil s)
  | cons s rest ih =>
    intro acc h
    rcases hl : acc.lookup s with _ | v
    · have hstep : decodeDependsOnList acc (s :: rest) =
          decodeDependsOnList (acc ++ [(s, .serviceStarted)]) rest := by
        rw [decodeDependsOnList, hl]
      rw [hstep]
      apply ih
      rcases h with h | ⟨t, ht, hsome⟩
      · rw [List.nodup_cons] at h
        rcases Decidable.em (s ∈ rest) with hmem | hmem
        · right
          refine ⟨s, hmem, ?_⟩
          rw [lookup_append_none _ _ _ hl, List.lookup_cons]
          simp
        · left
          intro hcon
          exact h ⟨hmem, hcon⟩
      · rcases List.mem_cons.mp ht with rfl | ht2
        · rw [hl] at hsome
          simp at hsome
        · right
          obtain ⟨w, hlt⟩ := Option.isSome_iff_exists.mp hsome
          refine ⟨t, ht2, ?_⟩
          rw [lookup_append_some _ _ _ _ hlt]
          rfl
    · exact ⟨"depends_on list cannot contain duplicate values", by
        rw [decodeDependsOnList, hl]⟩

theorem decodeDependsOnMap_ok (m : List (String × String))
    (h : ∀ p ∈ m, (condOfString p.2).isSome) :
    decodeDependsOnMap m =
      .ok (m.map (fun p => (p.1, (condOfString p.2).getD .serviceStarted))) := by
  induction m with
  | nil => rfl
  | cons p rest ih =>
    obtain ⟨c, hc⟩ := Option.isSome_iff_exists.mp (h p (List.mem_cons_self p rest))
    rcases p with ⟨service, cond⟩
    rw [decodeDependsOnMap, hc, ih (fun q hq => h q (List.mem_cons_of_mem _ hq))]
    simp only [Except.map, List.map_cons]
    rw [hc]
    rfl

theorem decodeDependsOnMap_error (m : List (String × String))
    (h : ∃ p ∈ m, condOfString p.2 = none) :
    ∃ e, decodeDependsOnMap m = .error e := by
  induction m with
  | nil =>
    obtain ⟨p, hp, _⟩ := h
    exact absurd hp (List.not_mem_nil p)
  | cons p rest ih =>
    rcases p with ⟨service, cond⟩
    rcases hc : condOfString cond with _ | c
    · exact ⟨_, by rw [decodeDependsOnMap, hc]⟩
    · obtain ⟨q, hq, hqnone⟩ := h
      rcases List.mem_cons.mp hq with rfl | hq2
      · rw [hc] at hqnone
        simp at hqnone
      · obtain ⟨e, he⟩ := ih ⟨q, hq2, hqnone⟩
        refine ⟨e, ?_⟩
        rw [decodeDependsOnMap, hc, he]
        rfl

theorem decodeDependsOnMap_isError (m : List (String × String)) :
    (∃ e, decodeDependsOnMap m = .error e) ↔ ∃ p ∈ m, condOfString p.2 = none := by
  constructor
  · intro he
    by_contra hcon
    push_neg at hcon
    have hall : ∀ p ∈ m, (condOfString p.2).isSome := by
      intro p hp
      rcases hc : condOfString p.2 with _ | c
      · exact absurd hc (hcon p hp)
      · rfl
    obtain ⟨e, he⟩ := he
    rw [decodeDependsOnMap_ok m hall] at he
    exact Except.noConfusion he
  · exact decodeDependsOnMap_error m

/-- C8: decoding `depends_on` from a list maps every listed name to
`service_started` and fails exactly when the list contains a duplicate name;
decoding from a map fails exactly when some entry's condition is not one of
`service_started`, `service_healthy`, `service_completed_successfully`, and
otherwise maps each name to its stated condition. -/
theorem dependsOnDecode_spec :
    (∀ l : List String, l.Nodup →
      dependsOnDecode (.list l) =
        .ok (l.map (fun s => (s, ServiceHealthiness.serviceStarted)))) ∧
    (∀ l : List String,
      (∃ e, dependsOnDecode (.list l) = .error e) ↔ ¬ l.Nodup) ∧
    (∀ m : List (String × String), (∀ p ∈ m, (condOfString p.2).isSome) →
      dependsOnDecode (.strMap m) =
        .ok (m.map (fun p => (p.1, (condOfString p.2).getD .serviceStarted)))) ∧
    (∀ m : List (String × String),
      (∃ e, dependsOnDecode (.strMap m) = .error e) ↔
        ∃ p ∈ m, condOfString p.2 = none) := by
  refine ⟨?_, ?_, ?_, ?_⟩
  · intro l hnd
    rw [dependsOnDecode, decodeDependsOnList_ok l [] hnd (fun s _ => rfl)]
    rfl
  · intro l
    constructor
    · intro he
      intro hnd
      obtain ⟨e, he⟩ := he
      rw [dependsOnDecode, decodeDependsOnList_ok l [] hnd (fun s _ => rfl)] at he
      exact Except.noConfusion he
    · intro hnd
      exact decodeDependsOnList_error l [] (Or.inl hnd)
  · intro m hall
    exact decodeDependsOnMap_ok m hall
  · intro m
    exact decodeDependsOnMap_isError m

/-- Witness for C8: a duplicated list entry fails, a nodup list succeeds, a
bad map condition fails, and a good map decodes to the stated conditions. -/
theorem dependsOnDecode_spec_witness :
    (["a", "b"] : List String).Nodup ∧
      dependsOnDecode (.list ["a", "b"]) =
        .ok [("a", ServiceHealthiness.serviceStarted),
          ("b", ServiceHealthiness.serviceStarted)] ∧
      (∃ e, dependsOnDecode (.list ["a", "a"]) = .error e) ∧
      (∀ p ∈ ([("c", "service_healthy")] : List (String × String)),
          (condOfString p.2).isSome) ∧
      dependsOnDecode (.strMap [("c", "service_healthy")]) =
        .ok [("c", ServiceHealthiness.serviceHealthy)] ∧
      (∃ e, dependsOnDecode (.strMap [("d", "bogus")]) = .error e) := by
  refine ⟨by decide, ?_, ?_, ?_, ?_, ?_⟩
  · exact dependsOnDecode_spec.1 ["a", "b"] (by decide)
  · exact (dependsOnDecode_spec.2.1 ["a", "a"]).mpr (by decide)
  · intro p hp
    rcases List.mem_singleton.mp hp with rfl
    rfl
  · exact dependsOnDecode_spec.2.2.1 [("c", "service_healthy")]
      (by
        intro p hp
        rcases List.mem_singleton.mp hp with rfl
        rfl)
  · exact (dependsOnDecode_spec.2.2.2 [("d", "bogus")]).mpr
      ⟨("d", "bogus"), List.mem_singleton.mpr rfl, rfl⟩

/-! ## volume-init image builder (src/unnamed/part_001) -/

/-- Go `buildVolumeInitImageGetDockerfile`: header, one COPY line per bind
volume (with trailing slashes iff the host path is a directory), and a bash
ENTRYPOINT whose script copies each volume into its mount. -/
def buildVolumeInitImageGetDockerfile (isDirSlice : List Bool) : String :=
  let header := "ARG BASE_IMAGE\nFROM ${BASE_IMAGE}\n"
  let copies := (List.range isDirSlice.length).foldl
    (fun acc j =>
      acc ++ (if isDirSlice.getD j false then
        "COPY data" ++ toString (j + 1) ++ "/ /app/data/vol" ++ toString (j + 1) ++ "/\n"
      else
        "COPY data" ++ toString (j + 1) ++ " /app/data/vol" ++ toString (j + 1) ++ "\n")) ""
  let entry := (List.range isDirSlice.length).foldl
    (fun acc j =>
      (if j > 0 then acc ++ " && " else acc) ++
        ("cp -ar /app/data/vol" ++ toString (j + 1) ++ " /mnt/vol" ++ toString (j + 1) ++
          "/root")) ""
  header ++ copies ++ "ENTRYPOINT [\"bash\", \"-c\", \"" ++ entry ++ "\"]\n"

/-- COPY line for volume `i` as the claim words it. -/
def copyLineClaim (isDir : Bool) (i : Nat) : String :=
  if isDir then "COPY data" ++ toString i ++ "/ /app/data/vol" ++ toString i ++ "/\n"
  else "COPY data" ++ toString i ++ " /app/data/vol" ++ toString i ++ "\n"

/-- Startup copy command for volume `i` as the claim words it. -/
def cpCommandClaim (i : Nat) : String :=
  "cp -ar /app/data/vol" ++ toString i ++ " /mnt/vol" ++ toString i ++ "/root"

/-- Concatenation of a list of strings. -/
def strJoin : List String → String
  | [] => ""
  | a :: t => a ++ strJoin t

/-- Strings joined by a separator. -/
def joinSep (sep : String) : List String → String
  | [] => ""
  | [a] => a
  | a :: rest => a ++ sep ++ joinSep sep rest

theorem joinSep_cons_cons (sep a b : String) (t : List String) :
    joinSep sep (a :: b :: t) = a ++ sep ++ joinSep sep (b :: t) := rfl

theorem joinSep_concat (sep : String) (l : List String) (a : String) :
    joinSep sep (l ++ [a]) = if l.isEmpty then a else joinSep sep l ++ sep ++ a := by
  induction l with
  | nil => rfl
  | cons b t ih =>
    cases t with
    | nil => rfl
    | cons c t2 =>
      simp only [List.cons_append] at ih ⊢
      rw [joinSep_cons_cons sep b c (t2 ++ [a]), ih]
      simp only [List.isEmpty_cons]
      rw [if_neg Bool.false_ne_true, if_neg Bool.false_ne_true]
      rw [joinSep_cons_cons sep b c t2]
      simp only [String.append_assoc]

theorem foldl_append_eq_strJoin (f : Nat → String) (l : List Nat) :
    ∀ init, l.foldl (fun acc j => acc ++ f j) init = init ++ strJoin (l.map f) := by
  induction l with
  | nil =>
    intro init
    show init = init ++ strJoin []
    rw [show strJoin [] = "" from rfl, String.append_empty]
  | cons a t ih =>
    intro init
    rw [List.foldl_cons, ih, List.map_cons]
    rw [show strJoin (f a :: t.map f) = f a ++ strJoin (t.map f) from rfl]
    rw [String.append_assoc]

theorem foldl_sep_eq_joinSep (g : Nat → String) (n : Nat) :
    (List.range n).foldl
        (fun acc j => (if j > 0 then acc ++ " && " else acc) ++ g j) "" =
      joinSep " && " ((List.range n).map g) := by
  induction n with
  | zero => rfl
  | succ m ih =>
    rw [List.range_succ, List.foldl_append, List.map_append, List.map_cons, List.map_nil]
    rw [List.foldl_cons, List.foldl_nil, ih, joinSep_concat]
    rcases m with _ | m2
    · rw [if_neg (Nat.lt_irrefl 0),
        if_pos (show ((List.range 0).map g).isEmpty = true from rfl),
        show joinSep " && " ((List.range 0).map g) = "" from rfl, String.empty_append]
    · have hne : ((List.range (m2 + 1)).map g).isEmpty = false := by
        rw [List.range_succ]
        simp
      rw [hne, if_neg Bool.false_ne_true, if_pos (Nat.succ_pos m2)]

/-- C9: the synthesised Dockerfile is exactly the header, the COPY line for
each volume `i` (trailing slashes iff directory), and an
`ENTRYPOINT ["bash", "-c", ...]` whose script is the per-volume
`cp -ar /app/data/vol<i> /mnt/vol<i>/root` commands joined by " && ". -/
theorem buildVolumeInitImageGetDockerfile_spec (isDirSlice : List Bool) :
    buildVolumeInitImageGetDockerfile isDirSlice =
      "ARG BASE_IMAGE\nFROM ${BASE_IMAGE}\n" ++
        strJoin ((List.range isDirSlice.length).map
          (fun j => copyLineClaim (isDirSlice.getD j false) (j + 1))) ++
        "ENTRYPOINT [\"bash\", \"-c\", \"" ++
        joinSep " && " ((List.range isDirSlice.length).map (fun j => cpCommandClaim (j + 1))) ++
        "\"]\n" := by
  rw [buildVolumeInitImageGetDockerfile]
  rw [foldl_append_eq_strJoin
    (fun j => if isDirSlice.getD j false then
      "COPY data" ++ toString (j + 1) ++ "/ /app/data/vol" ++ toString (j + 1) ++ "/\n"
    else "COPY data" ++ toString (j + 1) ++ " /app/data/vol" ++ toString (j + 1) ++ "\n")
    (List.range isDirSlice.length) ""]
  rw [foldl_sep_eq_joinSep]
  rw [String.empty_append]
  have hcopy : (fun j => if isDirSlice.getD j false then
      "COPY data" ++ toString (j + 1) ++ "/ /app/data/vol" ++ toString (j + 1) ++ "/\n"
    else "COPY data" ++ toString (j + 1) ++ " /app/data/vol" ++ toString (j + 1) ++ "\n") =
      (fun j => copyLineClaim (isDirSlice.getD j false) (j + 1)) := by
    funext j
    rw [copyLineClaim]
  have hcp : (fun j => "cp -ar /app/data/vol" ++ toString (j + 1) ++ " /mnt/vol" ++
      toString (j + 1) ++ "/root") = (fun j => cpCommandClaim (j + 1)) := by
    funext j
    rw [cpCommandClaim]
  rw [hcopy, hcp]

/-- Go `bindMountHostFileToTarHelper.isFileWithinBindHostRoot`.  The Go method
computes `vol := filepath.VolumeName(target)` and compares it with the root's
volume before comparing the remainders; here target and root are passed
already split into volume and remainder, and paths are byte lists with
`filepath.Separator = '/' = 47`. -/
def isFileWithinBindHostRoot (rootVol rootRest targetVol targetRest : List Nat) : Bool :=
  if targetVol ≠ rootVol then false
  else if rootRest.isPrefixOf targetRest then
    if targetRest.length = rootRest.length then true
    else if targetRest.getD rootRest.length 0 = 47 then true
    else false
  else false

/-- C10: a cleaned target is classified inside the bind root exactly when its
volume equals the root's volume and, after splitting off the volume, the
target equals the root or extends it at a path-separator boundary; a target on
a different volume, or one that merely extends the root's last component as a
string (root `/data`, target `/database`), is outside. -/
theorem isFileWithinBindHostRoot_spec :
    (∀ rootVol rootRest targetVol targetRest : List Nat,
      isFileWithinBindHostRoot rootVol rootRest targetVol targetRest = true ↔
        (targetVol = rootVol ∧ (targetRest = rootRest ∨
          (rootRest <+: targetRest ∧ targetRest.getD rootRest.length 0 = 47)))) ∧
    isFileWithinBindHostRoot [] (strBytes "/data") [] (strBytes "/database") = false ∧
    isFileWithinBindHostRoot [] (strBytes "/data") [] (strBytes "/data/x") = true ∧
    isFileWithinBindHostRoot [] (strBytes "/data") (strBytes "C:") (strBytes "/data") =
      false := by
  refine ⟨?_, by decide, by decide, by decide⟩
  intro rootVol rootRest targetVol targetRest
  rw [isFileWithinBindHostRoot]
  rcases Decidable.em (targetVol = rootVol) with hvol | hvol
  · rw [if_neg (by simpa using hvol)]
    rcases hpref : rootRest.isPrefixOf targetRest with _ | _
    · constructor
      · intro hcon
        exact (Bool.false_ne_true hcon).elim
      · rintro ⟨_, heq | ⟨hp, _⟩⟩
        · subst heq
          rw [( List.isPrefixOf_iff_prefix).mpr (List.prefix_refl _)] at hpref
          exact Bool.noConfusion hpref
        · rw [( List.isPrefixOf_iff_prefix).mpr hp] at hpref
          exact Bool.noConfusion hpref
    · have hp : rootRest <+: targetRest := ( List.isPrefixOf_iff_prefix).mp hpref
      rcases Decidable.em (targetRest.length = rootRest.length) with hlen | hlen
      · rw [if_pos hlen]
        constructor
        · intro _
          exact ⟨hvol, Or.inl (hp.eq_of_length hlen.symm).symm⟩
        · intro _
          rfl
      · rw [if_neg hlen]
        rcases Decidable.em (targetRest.getD rootRest.length 0 = 47) with hsep | hsep
        · rw [if_pos hsep]
          constructor
          · intro _
            exact ⟨hvol, Or.inr ⟨hp, hsep⟩⟩
          · intro _
            rfl
        · rw [if_neg hsep]
          constructor
          · intro hcon
            exact (Bool.false_ne_true hcon).elim
          · rintro ⟨_, heq | ⟨_, hs⟩⟩
            · exact (hlen (by rw [heq])).elim
            · exact (hsep hs).elim
  · rw [if_pos (by simpa using hvol)]
    constructor
    · intro hcon
      exact (Bool.false_ne_true hcon).elim
    · rintro ⟨heq, _⟩
      exact (hvol heq).elim

/-- Splitting a byte path at `'/'` (47); a path with `n` separators yields
`n + 1` segments, empty segments included. -/
def splitSegs (p : List Nat) : List (List Nat) :=
  p.foldr
    (fun b acc =>
      if b = 47 then [] :: acc
      else
        match acc with
        | h :: t => (b :: h) :: t
        | [] => [[b]]) [[]]

/-- Segment `"."`. -/
def dotSeg : List Nat := [46]

/-- Segment `".."`. -/
def dotdotSeg : List Nat := [46, 46]

/-- The element-processing loop of Go `filepath.Clean` at segment level:
empty and `"."` segments vanish, `".."` pops a poppable segment, is dropped at
the root, and is kept when the output is empty or ends in `".."` and the path
is not rooted; other segments are appended. -/
def cleanSegs (rooted : Bool) (segs : List (List Nat)) : List (List Nat) :=
  segs.foldl
    (fun out seg =>
      if seg = [] ∨ seg = dotSeg then out
      else if seg = dotdotSeg then
        (if out ≠ [] ∧ out.getLastD [] ≠ dotdotSeg then out.dropLast
         else if rooted then out else out ++ [dotdotSeg])
      else out ++ [seg]) []

/-- Go `filepath.Clean` for Unix slash paths. -/
def filepathClean (p : List Nat) : List Nat :=
  if p = [] then dotSeg
  else
    let rooted := p.headD 0 = 47
    let core := List.intercalate [47] (cleanSegs rooted (splitSegs p))
    if rooted then 47 :: core
    else if core = [] then dotSeg else core

/-- Go `filepath.Dir` for Unix paths: strip the final non-separator run, then
clean. -/
def filepathDir (p : List Nat) : List Nat :=
  filepathClean ((p.reverse.dropWhile (fun b => ¬ b = 47)).reverse)

/-- Go `filepath.Join` of two elements for Unix paths: empty elements are
skipped and the result is cleaned. -/
def filepathJoin (a b : List Nat) : List Nat :=
  if a = [] then (if b = [] then [] else filepathClean b)
  else if b = [] then filepathClean a
  else filepathClean (a ++ 47 :: b)

/-- Go `filepath.Abs` for Unix paths, with the working directory made an
explicit argument: an absolute path is cleaned, a relative one is joined to
the working directory. -/
def filepathAbs (cwd p : List Nat) : List Nat :=
  if p.headD 0 = 47 then filepathClean p else filepathJoin cwd p

/-- Discards the longest common leading run of two segment lists. -/
def stripCommon : List (List Nat) → List (List Nat) → List (List Nat) × List (List Nat)
  | x :: xs, y :: ys => if x = y then stripCommon xs ys else (x :: xs, y :: ys)
  | xs, ys => (xs, ys)

/-- Go `filepath.Rel` for cleaned, slashed, relative paths (the shape the
source guarantees at the call site): strip the common leading segments, go up
with `".."` once per remaining base segment, then down the remaining target
segments.  The error cases of `filepath.Rel` yield the empty path, matching
the source's discarded error value. -/
def filepathRel (base targ : List Nat) : List Nat :=
  let b := filepathClean base
  let t := filepathClean targ
  if b = t then dotSeg
  else
    let bs := if b = dotSeg then [] else splitSegs b
    let ts := if t = dotSeg then [] else splitSegs t
    let rem := stripCommon bs ts
    if rem.1.headD [] = dotdotSeg then []
    else if rem.1 ≠ [] then
      List.intercalate [47] (List.replicate rem.1.length dotdotSeg ++ rem.2)
    else List.intercalate [47] rem.2

mutual
/-- A file tree as seen through `fs.OS.Lstat`/`Readlink`/`Open`: regular files
with contents, symlinks with their raw target, directories with named entries
in `Readdir` order, and `other` for sockets, devices and other irregular
files. -/
inductive FSNode where
  | regular : List Nat → FSNode
  | symlink : List Nat → FSNode
  | other : FSNode
  | directory : FSEntries → FSNode

inductive FSEntries where
  | nil : FSEntries
  | cons : List Nat → FSNode → FSEntries → FSEntries
end

/-- An entry written to the tar stream: the fields of `tar.Header` (plus file
contents) that the walk sets. -/
inductive TarEntry where
  | regular : List Nat → List Nat → TarEntry
  | directory : List Nat → TarEntry
  | symlink : List Nat → List Nat → TarEntry
deriving DecidableEq

/-- The errors produced by the walk. -/
inductive WalkError where
  | symlinkOutsideBindVolume : List Nat → List Nat → WalkError
  | notRegularFile : List Nat → WalkError
deriving DecidableEq

/-- Go `bindMountHostFileToTarHelper` (the tar writer is replaced by the
returned entry list), plus the working directory consulted by
`fs.OS.Abs`. -/
structure BindMountHelper where
  renameTo : List Nat
  rootHostFile : List Nat
  rootHostFileVol : List Nat
  rootHostFileWithoutVol : List Nat
  cwd : List Nat

/-- Resolution of a symlink target in `runSymlink` (lines 142-158 of the
source) for Unix paths: a target starting with `'/'` or `'\'` is made
absolute, any other is joined to the link's parent directory
(`filepath.VolumeName` is empty on Unix, so the drive-relative case cannot
arise). -/
def resolveLinkTarget (cwd hostFile link : List Nat) : List Nat :=
  if link ≠ [] ∧ (link.headD 0 = 47 ∨ link.headD 0 = 92) then filepathAbs cwd link
  else filepathJoin (filepathDir hostFile) link

/-- Go `bindMountHostFileToTarHelper.runSymlink`: a symlink resolving inside
the bind root is written with its target rewritten to a relative tar-internal
path; a symlink resolving outside fails (`filepath.ToSlash` is the identity on
Unix). -/
def runSymlink (h : BindMountHelper) (link hostFile fileNameInTar : List Nat) :
    Except WalkError TarEntry :=
  let linkResolved := resolveLinkTarget h.cwd hostFile link
  if isFileWithinBindHostRoot h.rootHostFileVol h.rootHostFileWithoutVol [] linkResolved then
    let linkResolvedInTar := h.renameTo ++ linkResolved.drop h.rootHostFile.length
    .ok (.symlink fileNameInTar (filepathRel (filepathDir fileNameInTar) linkResolvedInTar))
  else .error (.symlinkOutsideBindVolume hostFile h.rootHostFile)

mutual
/-- Go `runRecursive` / `runDirectory` / `runRegular`: symlinks go through
`runSymlink`; a directory writes its own header (name with a trailing slash)
and then recurses into its entries, children named `hostFile + "/" + name` and
`headerName + name`; a regular file writes a header plus contents; any other
inode fails. -/
def runRecursive (h : BindMountHelper) :
    FSNode → List Nat → List Nat → Except WalkError (List TarEntry)
  | .symlink link, hostFile, fileNameInTar =>
    (runSymlink h link hostFile fileNameInTar).map (fun e => [e])
  | .directory entries, hostFile, fileNameInTar =>
    match runEntries h entries hostFile (fileNameInTar ++ [47]) with
    | .ok children => .ok (.directory (fileNameInTar ++ [47]) :: children)
    | .error e => .error e
  | .regular content, _, fileNameInTar => .ok [.regular fileNameInTar content]
  | .other, hostFile, _ => .error (.notRegularFile hostFile)

def runEntries (h : BindMountHelper) :
    FSEntries → List Nat → List Nat → Except WalkError (List TarEntry)
  | .nil, _, _ => .ok []
  | .cons name child rest, hostFile, dirNameInTar =>
    match runRecursive h child (hostFile ++ 47 :: name) (dirNameInTar ++ name) with
    | .ok es =>
      match runEntries h rest hostFile dirNameInTar with
      | .ok more => .ok (es ++ more)
      | .error e => .error e
    | .error e => .error e
end

/-- Go `bindMountHostFileToTar`: build the helper (on Unix
`filepath.VolumeName(hostFile)` is empty), record whether the root is a
directory, and walk. -/
def mkBindMountHelper (cwd renameTo hostFile : List Nat) : BindMountHelper :=
  { renameTo := renameTo
    rootHostFile := hostFile
    rootHostFileVol := []
    rootHostFileWithoutVol := hostFile.drop ([] : List Nat).length
    cwd := cwd }

def bindMountHostFileToTar (cwd : List Nat) (node : FSNode) (hostFile renameTo : List Nat) :
    Except WalkError (Bool × List TarEntry) :=
  let h := mkBindMountHelper cwd renameTo hostFile
  let isDir := match node with
    | .directory _ => true
    | _ => false
  (runRecursive h node hostFile renameTo).map (fun es => (isDir, es))

/-- The loop of `buildVolumeInitImageGetBuildContext` over the bind volume
host paths, accumulating tar entries and the `isDirSlice`. -/
def buildContextAux (cwd : List Nat) :
    Nat → List (List Nat × FSNode) → Except WalkError (List TarEntry × List Bool)
  | _, [] => .ok ([], [])
  | i, (hostFile, node) :: rest =>
    match bindMountHostFileToTar cwd node hostFile (strBytes ("data" ++ toString (i + 1))) with
    | .error e => .error e
    | .ok (isDir, es) =>
      match buildContextAux cwd (i + 1) rest with
      | .error e => .error e
      | .ok (moreEs, dirs) => .ok (es ++ moreEs, isDir :: dirs)

/-- Go `buildVolumeInitImageGetBuildContext`: walk every bind volume host path
into the tar, then append the synthesised Dockerfile; any walk error aborts
and no build context is produced. -/
def buildVolumeInitImageGetBuildContext (cwd : List Nat)
    (roots : List (List Nat × FSNode)) : Except WalkError (List TarEntry) :=
  match buildContextAux cwd 0 roots with
  | .error e => .error e
  | .ok (es, isDirSlice) =>
    .ok (es ++ [.regular (strBytes "Dockerfile")
      (strBytes (buildVolumeInitImageGetDockerfile isDirSlice))])

mutual
/-- Does the tree rooted at `hostFile` contain a symlink whose resolved target
falls outside the bind root?  (Written from the claim's words; mirrors the
resolution performed by the walk.) -/
def hasEscapingSymlink (cwd rootVol rootRest : List Nat) :
    FSNode → List Nat → Bool
  | .symlink link, hostFile =>
    !(isFileWithinBindHostRoot rootVol rootRest []
      (resolveLinkTarget cwd hostFile link))
  | .directory entries, hostFile => entriesHaveEscapingSymlink cwd rootVol rootRest entries hostFile
  | .regular _, _ => false
  | .other, _ => false

def entriesHaveEscapingSymlink (cwd rootVol rootRest : List Nat) :
    FSEntries → List Nat → Bool
  | .nil, _ => false
  | .cons name child rest, hostFile =>
    hasEscapingSymlink cwd rootVol rootRest child (hostFile ++ 47 :: name) ||
      entriesHaveEscapingSymlink cwd rootVol rootRest rest hostFile
end

mutual
theorem runRecursive_error_of_escape (h : BindMountHelper) (node : FSNode)
    (hostFile fileNameInTar : List Nat)
    (hesc : hasEscapingSymlink h.cwd h.rootHostFileVol h.rootHostFileWithoutVol
      node hostFile = true) :
    ∃ e, runRecursive h node hostFile fileNameInTar = .error e := by
  cases node with
  | symlink link =>
    rw [hasEscapingSymlink, Bool.not_eq_true'] at hesc
    refine ⟨.symlinkOutsideBindVolume hostFile h.rootHostFile, ?_⟩
    rw [runRecursive, runSymlink]
    rw [if_neg (by rw [hesc]; exact Bool.false_ne_true)]
    rfl
  | directory entries =>
    rw [hasEscapingSymlink] at hesc
    obtain ⟨e, he⟩ := runEntries_error_of_escape h entries hostFile
      (fileNameInTar ++ [47]) hesc
    refine ⟨e, ?_⟩
    rw [runRecursive, he]
  | regular content =>
    rw [hasEscapingSymlink] at hesc
    exact Bool.noConfusion hesc
  | other =>
    exact ⟨.notRegularFile hostFile, rfl⟩

theorem runEntries_error_of_escape (h : BindMountHelper) (entries : FSEntries)
    (hostFile dirNameInTar : List Nat)
    (hesc : entriesHaveEscapingSymlink h.cwd h.rootHostFileVol h.rootHostFileWithoutVol
      entries hostFile = true) :
    ∃ e, runEntries h entries hostFile dirNameInTar = .error e := by
  cases entries with
  | nil =>
    rw [entriesHaveEscapingSymlink] at hesc
    exact Bool.noConfusion hesc
  | cons name child rest =>
    rw [entriesHaveEscapingSymlink, Bool.or_eq_true] at hesc
    rcases hchild : runRecursive h child (hostFile ++ 47 :: name) (dirNameInTar ++ name)
      with e | es
    · refine ⟨e, ?_⟩
      rw [runEntries, hchild]
    · rcases hesc with hesc | hesc
      · obtain ⟨e, he⟩ := runRecursive_error_of_escape h child
          (hostFile ++ 47 :: name) (dirNameInTar ++ name) hesc
        rw [hchild] at he
        exact Except.noConfusion he
      · obtain ⟨e, he⟩ := runEntries_error_of_escape h rest hostFile dirNameInTar hesc
        refine ⟨e, ?_⟩
        rw [runEntries, hchild, he]
end

theorem buildContextAux_error (cwd : List Nat) (roots : List (List Nat × FSNode)) :
    ∀ i, (∃ p ∈ roots, hasEscapingSymlink cwd [] p.1 p.2 p.1 = true) →
      ∃ e, buildContextAux cwd i roots = .error e := by
  induction roots with
  | nil =>
    intro i h
    obtain ⟨p, hp, _⟩ := h
    exact absurd hp (List.not_mem_nil p)
  | cons pr rest ih =>
    intro i h
    rcases pr with ⟨hostFile, node⟩
    rcases hb : bindMountHostFileToTar cwd node hostFile
        (strBytes ("data" ++ toString (i + 1))) with e | v
    · refine ⟨e, ?_⟩
      rw [buildContextAux, hb]
    · obtain ⟨p, hp, hpesc⟩ := h
      rcases List.mem_cons.mp hp with rfl | hp2
      · exfalso
        obtain ⟨e, he⟩ := runRecursive_error_of_escape
          (mkBindMountHelper cwd (strBytes ("data" ++ toString (i + 1))) hostFile)
          node hostFile (strBytes ("data" ++ toString (i + 1))) hpesc
        have hbmt : bindMountHostFileToTar cwd node hostFile
            (strBytes ("data" ++ toString (i + 1))) = .error e := by
          simp only [bindMountHostFileToTar, he, Except.map]
        rw [hbmt] at hb
        exact Except.noConfusion hb
      · obtain ⟨e, he⟩ := ih (i + 1) ⟨p, hp2, hpesc⟩
        refine ⟨e, ?_⟩
        rw [buildContextAux, hb, he]

/-- C4: while building the volume-init build context, a symlink whose resolved
target lies within the bind root is written to the tar with its target
rewritten to a relative tar-internal path; a symlink whose resolved target
lies outside causes a symlink-outside-bind-volume error, and a tree containing
such a symlink makes `buildVolumeInitImageGetBuildContext` fail, so no build
context (hence no image) is produced. -/
theorem volumeInitSymlink_spec (cwd renameTo rootHostFile link hostFile
    fileNameInTar : List Nat) :
    (isFileWithinBindHostRoot [] rootHostFile []
        (resolveLinkTarget cwd hostFile link) = true →
      runSymlink (mkBindMountHelper cwd renameTo rootHostFile) link hostFile fileNameInTar =
        .ok (.symlink fileNameInTar (filepathRel (filepathDir fileNameInTar)
          (renameTo ++ (resolveLinkTarget cwd hostFile link).drop rootHostFile.length)))) ∧
    (isFileWithinBindHostRoot [] rootHostFile []
        (resolveLinkTarget cwd hostFile link) = false →
      runSymlink (mkBindMountHelper cwd renameTo rootHostFile) link hostFile fileNameInTar =
        .error (.symlinkOutsideBindVolume hostFile rootHostFile)) ∧
    (∀ roots : List (List Nat × FSNode),
      (∃ p ∈ roots, hasEscapingSymlink cwd [] p.1 p.2 p.1 = true) →
      ∃ e, buildVolumeInitImageGetBuildContext cwd roots = .error e) := by
  refine ⟨?_, ?_, ?_⟩
  · intro hin
    simp only [runSymlink, mkBindMountHelper, List.length_nil, List.drop_zero]
    rw [if_pos hin]
  · intro hout
    simp only [runSymlink, mkBindMountHelper, List.length_nil, List.drop_zero]
    rw [if_neg (by rw [hout]; exact Bool.false_ne_true)]
  · intro roots hroots
    obtain ⟨e, he⟩ := buildContextAux_error cwd roots 0 hroots
    refine ⟨e, ?_⟩
    rw [buildVolumeInitImageGetBuildContext, he]

/-- Witness for C4, scenario S5: under bind root `/root`, a symlink to
`/root/x` is written with a rewritten relative target, a symlink to
`/etc/passwd` fails with the symlink-outside-bind-volume error, and a tree
containing the latter makes the whole build context fail. -/
theorem volumeInitSymlink_spec_witness :
    runSymlink (mkBindMountHelper (strBytes "/") (strBytes "data1") (strBytes "/root"))
        (strBytes "/root/x") (strBytes "/root/link") (strBytes "data1/link") =
      .ok (.symlink (strBytes "data1/link")
        (filepathRel (filepathDir (strBytes "data1/link"))
          (strBytes "data1" ++
            (resolveLinkTarget (strBytes "/") (strBytes "/root/link")
              (strBytes "/root/x")).drop (strBytes "/root").length))) ∧
    runSymlink (mkBindMountHelper (strBytes "/") (strBytes "data1") (strBytes "/root"))
        (strBytes "/etc/passwd") (strBytes "/root/link") (strBytes "data1/link") =
      .error (.symlinkOutsideBindVolume (strBytes "/root/link") (strBytes "/root")) ∧
    ∃ e, buildVolumeInitImageGetBuildContext (strBytes "/")
        [(strBytes "/root", FSNode.directory (.cons (strBytes "link")
          (.symlink (strBytes "/etc/passwd")) .nil))] = .error e := by
  refine ⟨?_, ?_, ?_⟩
  · exact (volumeInitSymlink_spec (strBytes "/") (strBytes "data1") (strBytes "/root")
      (strBytes "/root/x") (strBytes "/root/link") (strBytes "data1/link")).1 (by decide)
  · exact (volumeInitSymlink_spec (strBytes "/") (strBytes "data1") (strBytes "/root")
      (strBytes "/etc/passwd") (strBytes "/root/link") (strBytes "data1/link")).2.1
      (by decide)
  · exact (volumeInitSymlink_spec (strBytes "/") (strBytes "data1") (strBytes "/root")
      (strBytes "/etc/passwd") (strBytes "/root/link") (strBytes "data1/link")).2.2
      [(strBytes "/root", FSNode.directory (.cons (strBytes "link")
        (.symlink (strBytes "/etc/passwd")) .nil))]
      ⟨(strBytes "/root", FSNode.directory (.cons (strBytes "link")
        (.symlink (strBytes "/etc/passwd")) .nil)),
        List.mem_singleton.mpr rfl, by decide⟩
